import Mathlib

/-!
# Verification of the geometric alignment pipeline

Shallow embedding of the alignment pipeline of `brainglobe-template-builder`
(`brainglobe_template_builder/napari/_widget.py`), together with models of the
helper routines the widget imports from `brainglobe_template_builder.utils`
(not included in the sources; modelled from the specification) and of the
external routines it calls (`skimage.morphology.binary_erosion`,
`scipy.ndimage.affine_transform`), at the level their call sites determine.

All real-vector arithmetic is over `Fin 3 → ℝ`; homogeneous matrices are
`Matrix (Fin 4) (Fin 4) ℝ`; masks are boolean functions on `Fin 3 → ℤ`
together with an explicit shape.
-/

open Matrix

noncomputable section

/-! ## Basic 3-vector algebra -/

/-- Euclidean dot product on `Fin 3 → ℝ`. -/
def dot3 (a b : Fin 3 → ℝ) : ℝ := a 0 * b 0 + a 1 * b 1 + a 2 * b 2

/-- Cross product on `Fin 3 → ℝ`. -/
def cross3 (a b : Fin 3 → ℝ) : Fin 3 → ℝ :=
  ![a 1 * b 2 - a 2 * b 1, a 2 * b 0 - a 0 * b 2, a 0 * b 1 - a 1 * b 0]

/-- The skew-symmetric matrix `[v]ₓ` of a 3-vector, so that
`crossMat v *ᵥ w = cross3 v w`. -/
def crossMat (v : Fin 3 → ℝ) : Matrix (Fin 3) (Fin 3) ℝ :=
  !![0, -v 2, v 1; v 2, 0, -v 0; -v 1, v 0, 0]

lemma crossMat_mulVec (v w : Fin 3 → ℝ) : (crossMat v).mulVec w = cross3 v w := by
  funext i
  fin_cases i <;>
    simp [crossMat, cross3, Matrix.mulVec, Matrix.dotProduct, Fin.sum_univ_three] <;> ring

lemma cross3_self (s : Fin 3 → ℝ) : cross3 s s = 0 := by
  funext i; fin_cases i <;> simp [cross3] <;> ring

lemma dot3_cross3_left (s t : Fin 3 → ℝ) : dot3 (cross3 s t) s = 0 := by
  simp [dot3, cross3]; ring

/-- Lagrange's identity for the cross product. -/
lemma dot3_cross3_cross3 (s t : Fin 3 → ℝ) :
    dot3 (cross3 s t) (cross3 s t) = dot3 s s * dot3 t t - dot3 s t * dot3 s t := by
  simp [dot3, cross3]; ring

/-- Grassmann expansion `(s × t) × s = (s·s) t − (s·t) s`. -/
lemma cross3_cross3_left (s t : Fin 3 → ℝ) :
    cross3 (cross3 s t) s = dot3 s s • t - dot3 s t • s := by
  funext i; fin_cases i <;> simp [cross3, dot3] <;> ring

/-- Grassmann expansion `v × (v × w) = (v·w) v − (v·v) w`. -/
lemma cross3_cross3_self (v w : Fin 3 → ℝ) :
    cross3 v (cross3 v w) = dot3 v w • v - dot3 v v • w := by
  funext i; fin_cases i <;> simp [cross3, dot3] <;> ring

lemma crossMat_transpose (v : Fin 3 → ℝ) : (crossMat v)ᵀ = -crossMat v := by
  ext i j
  fin_cases i <;> fin_cases j <;> simp [crossMat]

/-! ## VectorAligner

`align_vectors` is imported by the widget from `brainglobe_template_builder.utils`,
a module that is not among the provided sources; it is modelled from the
specification (§4.6). -/

/-- Modelled from the spec: a deterministic choice of a unit vector orthogonal
to `s`, used as the rotation axis in the anti-parallel branch of
`align_vectors` ("select any vector orthogonal to s as the axis"). -/
def orthoAxis (s : Fin 3 → ℝ) : Fin 3 → ℝ :=
  if s 0 = 0 ∧ s 1 = 0 then ![1, 0, 0]
  else (1 / Real.sqrt (s 0 ^ 2 + s 1 ^ 2)) • ![-(s 1), s 0, 0]

/-- Rotation by π about the axis `u`, i.e. `2 · u uᵀ − I`. -/
def piRotation (u : Fin 3 → ℝ) : Matrix (Fin 3) (Fin 3) ℝ :=
  Matrix.of fun i j => 2 * u i * u j - if i = j then 1 else 0

/-- Modelled from the spec: `align_vectors` from
`brainglobe_template_builder.utils` (absent from the sources), per §4.6 the
minimal rotation mapping the source unit vector onto the target unit vector,
built by the Rodrigues axis–angle construction from their cross product and dot
product; when the vectors are anti-parallel it rotates by π about a chosen
orthogonal axis. -/
def align_vectors (s t : Fin 3 → ℝ) : Matrix (Fin 3) (Fin 3) ℝ :=
  open Classical in
  if dot3 s t = -1 then piRotation (orthoAxis s)
  else
    1 + crossMat (cross3 s t)
      + (1 / (1 + dot3 s t)) • (crossMat (cross3 s t) * crossMat (cross3 s t))

/-- Rank-one update of the identity used to analyse `piRotation`. -/
def outerMat (u : Fin 3 → ℝ) : Matrix (Fin 3) (Fin 3) ℝ :=
  Matrix.of fun i j => u i * u j

lemma piRotation_transpose_mul_pure (u : Fin 3 → ℝ) :
    (piRotation u)ᵀ * piRotation u = 1 + (4 * dot3 u u - 4) • outerMat u := by
  ext i j
  fin_cases i <;> fin_cases j <;>
    simp [piRotation, outerMat, dot3, Matrix.mul_apply, Fin.sum_univ_three,
      Matrix.one_apply] <;> ring

lemma piRotation_det_pure (u : Fin 3 → ℝ) :
    (piRotation u).det = 2 * dot3 u u - 1 := by
  simp [Matrix.det_fin_three, piRotation, dot3]; ring

lemma piRotation_mulVec (u w : Fin 3 → ℝ) :
    (piRotation u).mulVec w = (2 * dot3 u w) • u - w := by
  funext i
  fin_cases i <;>
    simp [piRotation, dot3, Matrix.mulVec, Matrix.dotProduct, Fin.sum_univ_three] <;> ring

lemma orthoAxis_dot (s : Fin 3 → ℝ) : dot3 (orthoAxis s) s = 0 := by
  unfold orthoAxis
  split
  · rename_i h
    simp [dot3, h.1]
  · simp [dot3]; ring

lemma orthoAxis_unit (s : Fin 3 → ℝ) : dot3 (orthoAxis s) (orthoAxis s) = 1 := by
  unfold orthoAxis
  split
  · simp [dot3]
  · rename_i h
    push_neg at h
    have hq : 0 < s 0 ^ 2 + s 1 ^ 2 := by
      by_cases h0 : s 0 = 0
      · have h1 := h h0
        positivity
      · positivity
    have hsq : Real.sqrt (s 0 ^ 2 + s 1 ^ 2) ^ 2 = s 0 ^ 2 + s 1 ^ 2 :=
      Real.sq_sqrt hq.le
    have hne : Real.sqrt (s 0 ^ 2 + s 1 ^ 2) ≠ 0 := by
      intro hz
      rw [hz] at hsq
      simp at hsq
      nlinarith
    simp only [dot3, Pi.smul_apply, smul_eq_mul]
    field_simp
    nlinarith [hsq]

lemma rodrigues_transpose_mul_pure (v : Fin 3 → ℝ) (a : ℝ) :
    (1 - crossMat v + a • (crossMat v * crossMat v)) *
      (1 + crossMat v + a • (crossMat v * crossMat v)) =
    1 + (2 * a - 1 - a ^ 2 * dot3 v v) • (crossMat v * crossMat v) := by
  ext i j
  fin_cases i <;> fin_cases j <;>
    simp [crossMat, dot3, Matrix.mul_apply, Fin.sum_univ_three,
      Matrix.one_apply] <;> ring

lemma rodrigues_det_pure (v : Fin 3 → ℝ) (a : ℝ) :
    (1 + crossMat v + a • (crossMat v * crossMat v)).det =
      (1 - a * dot3 v v) ^ 2 + dot3 v v := by
  simp [Matrix.det_fin_three, crossMat, dot3, Matrix.mul_apply,
    Fin.sum_univ_three, Matrix.one_apply]
  ring

lemma rodrigues_transpose (v : Fin 3 → ℝ) (a : ℝ) :
    (1 + crossMat v + a • (crossMat v * crossMat v))ᵀ =
      1 - crossMat v + a • (crossMat v * crossMat v) := by
  simp [Matrix.transpose_add, Matrix.transpose_smul, Matrix.transpose_mul,
    crossMat_transpose]
  noncomm_ring

lemma rodrigues_mulVec (v : Fin 3 → ℝ) (a : ℝ) (s : Fin 3 → ℝ) :
    (1 + crossMat v + a • (crossMat v * crossMat v)).mulVec s =
      s + cross3 v s + a • cross3 v (cross3 v s) := by
  funext i
  fin_cases i <;>
    simp [crossMat, cross3, Matrix.mulVec, Matrix.dotProduct, Matrix.mul_apply,
      Fin.sum_univ_three, Matrix.one_apply, Matrix.vecHead, Matrix.vecTail,
      Function.comp] <;> ring

/-- Two unit vectors with dot product −1 are opposite. -/
lemma eq_neg_of_unit_dot_neg_one {s t : Fin 3 → ℝ} (hs : dot3 s s = 1)
    (ht : dot3 t t = 1) (hst : dot3 s t = -1) : t = -s := by
  simp only [dot3] at hs ht hst
  have hsum : (s 0 + t 0) ^ 2 + (s 1 + t 1) ^ 2 + (s 2 + t 2) ^ 2 = 0 := by
    linear_combination hs + 2 * hst + ht
  have h0 : s 0 + t 0 = 0 := by
    nlinarith [sq_nonneg (s 0 + t 0), sq_nonneg (s 1 + t 1), sq_nonneg (s 2 + t 2)]
  have h1 : s 1 + t 1 = 0 := by
    nlinarith [sq_nonneg (s 0 + t 0), sq_nonneg (s 1 + t 1), sq_nonneg (s 2 + t 2)]
  have h2 : s 2 + t 2 = 0 := by
    nlinarith [sq_nonneg (s 0 + t 0), sq_nonneg (s 1 + t 1), sq_nonneg (s 2 + t 2)]
  funext i
  fin_cases i <;> simp <;> linarith

lemma align_vectors_self (s : Fin 3 → ℝ) (hs : dot3 s s = 1) :
    align_vectors s s = 1 := by
  unfold align_vectors
  rw [if_neg (by rw [hs]; norm_num)]
  have hK : crossMat (cross3 s s) = 0 := by
    rw [cross3_self]
    ext i j
    fin_cases i <;> fin_cases j <;>
      simp [crossMat, Matrix.vecHead, Matrix.vecTail]
  rw [hK]
  simp

lemma align_vectors_orth (s t : Fin 3 → ℝ) (hs : dot3 s s = 1)
    (ht : dot3 t t = 1) :
    (align_vectors s t)ᵀ * align_vectors s t = 1 := by
  unfold align_vectors
  split
  · rw [piRotation_transpose_mul_pure, orthoAxis_unit]
    norm_num
  · rename_i hc
    have h1c : 1 + dot3 s t ≠ 0 := by
      intro h
      exact hc (by linarith)
    rw [rodrigues_transpose, rodrigues_transpose_mul_pure]
    have hw : dot3 (cross3 s t) (cross3 s t) = 1 - dot3 s t * dot3 s t := by
      rw [dot3_cross3_cross3, hs, ht]; ring
    have hcoef : 2 * (1 / (1 + dot3 s t)) - 1 -
        (1 / (1 + dot3 s t)) ^ 2 * dot3 (cross3 s t) (cross3 s t) = 0 := by
      rw [hw]
      field_simp
      ring
    rw [hcoef]
    simp

lemma align_vectors_det (s t : Fin 3 → ℝ) (hs : dot3 s s = 1)
    (ht : dot3 t t = 1) :
    (align_vectors s t).det = 1 := by
  unfold align_vectors
  split
  · rw [piRotation_det_pure, orthoAxis_unit]
    norm_num
  · rename_i hc
    have h1c : 1 + dot3 s t ≠ 0 := by
      intro h
      exact hc (by linarith)
    rw [rodrigues_det_pure]
    have hw : dot3 (cross3 s t) (cross3 s t) = 1 - dot3 s t * dot3 s t := by
      rw [dot3_cross3_cross3, hs, ht]; ring
    rw [hw]
    field_simp
    ring

lemma align_vectors_mulVec (s t : Fin 3 → ℝ) (hs : dot3 s s = 1)
    (ht : dot3 t t = 1) :
    (align_vectors s t).mulVec s = t := by
  unfold align_vectors
  split
  · rename_i hc
    have hts : t = -s := eq_neg_of_unit_dot_neg_one hs ht hc
    rw [piRotation_mulVec, orthoAxis_dot, hts]
    simp
  · rename_i hc
    have h1c : 1 + dot3 s t ≠ 0 := by
      intro h
      exact hc (by linarith)
    rw [rodrigues_mulVec, cross3_cross3_left, hs]
    have hvs : cross3 (cross3 s t) (cross3 (cross3 s t) s) =
        dot3 (cross3 s t) s • cross3 s t -
          dot3 (cross3 s t) (cross3 s t) • s := cross3_cross3_self _ _
    rw [cross3_cross3_left, hs] at hvs
    rw [hvs, dot3_cross3_left]
    have hw : dot3 (cross3 s t) (cross3 s t) = 1 - dot3 s t * dot3 s t := by
      rw [dot3_cross3_cross3, hs, ht]; ring
    rw [hw]
    have hcoef : 1 - dot3 s t - (1 / (1 + dot3 s t)) * (1 - dot3 s t * dot3 s t) = 0 := by
      field_simp
      ring
    funext i
    simp only [Pi.add_apply, Pi.sub_apply, Pi.smul_apply, Pi.zero_apply,
      smul_eq_mul, one_smul]
    linear_combination s i * hcoef

/-- C6: for all unit vectors `s` and `t`, `align_vectors s t` is an orthonormal
matrix of determinant +1 mapping `s` to `t`, and `align_vectors s s` is the
identity matrix. -/
theorem align_vectors_rotation_spec (s t : Fin 3 → ℝ) (hs : dot3 s s = 1)
    (ht : dot3 t t = 1) :
    (align_vectors s t)ᵀ * align_vectors s t = 1 ∧
    (align_vectors s t).det = 1 ∧
    (align_vectors s t).mulVec s = t ∧
    align_vectors s s = 1 :=
  ⟨align_vectors_orth s t hs ht, align_vectors_det s t hs ht,
    align_vectors_mulVec s t hs ht, align_vectors_self s hs⟩

/-- Witness for C6 at the concrete unit vectors `(1,0,0)` and `(0,1,0)`. -/
theorem align_vectors_rotation_spec_witness :
    (align_vectors ![1, 0, 0] ![0, 1, 0])ᵀ * align_vectors ![1, 0, 0] ![0, 1, 0] = 1 ∧
    (align_vectors ![1, 0, 0] ![0, 1, 0]).det = 1 ∧
    (align_vectors ![1, 0, 0] ![0, 1, 0]).mulVec ![1, 0, 0] = ![0, 1, 0] ∧
    align_vectors ![1, 0, 0] ![1, 0, 0] = 1 :=
  align_vectors_rotation_spec ![1, 0, 0] ![0, 1, 0] (by simp [dot3]) (by simp [dot3])

/-! ## align_widget: transform composition

Translated from `align_widget` in
`brainglobe_template_builder/napari/_widget.py`, lines 173–204. -/

/-- Source line 182: `x_axis = np.array([0, 0, 1])`. -/
def x_axis : Fin 3 → ℝ := ![0, 0, 1]

/-- Source lines 178–179: `translate_to_origin = np.eye(4)`;
`translate_to_origin[:3, 3] = -centroid`. -/
def translate_to_origin (centroid : Fin 3 → ℝ) : Matrix (Fin 4) (Fin 4) ℝ :=
  Matrix.of fun i j =>
    if i = j then 1
    else if j = 3 then (if hi : (i : ℕ) < 3 then -centroid ⟨i, hi⟩ else 0)
    else 0

/-- Source lines 184–185: `rotation = np.eye(4)`;
`rotation[:3, :3] = rotation_matrix`. -/
def rotation4 (R : Matrix (Fin 3) (Fin 3) ℝ) : Matrix (Fin 4) (Fin 4) ℝ :=
  Matrix.of fun i j =>
    if hi : (i : ℕ) < 3 then
      (if hj : (j : ℕ) < 3 then R ⟨i, hi⟩ ⟨j, hj⟩ else 0)
    else (if i = j then 1 else 0)

/-- Source lines 188–190: `translate_to_mid_x = np.eye(4)`;
`mid_x = image.data.shape[2] // 2`;
`translate_to_mid_x[2, 3] = mid_x - centroid[2]`. -/
def translate_to_mid_x (mid_x : ℕ) (centroid : Fin 3 → ℝ) : Matrix (Fin 4) (Fin 4) ℝ :=
  Matrix.of fun i j =>
    if i = 2 ∧ j = 3 then (mid_x : ℝ) - centroid 2
    else if i = j then 1 else 0

/-- Source lines 193–198: the composed homogeneous transform
`np.linalg.inv(translate_to_origin) @ rotation @ translate_to_origin
@ translate_to_mid_x`, with `np.linalg.inv` modelled as the exact matrix
inverse and `mid_x = shape[2] // 2`. -/
def align_transform (centroid normal : Fin 3 → ℝ) (shape : Fin 3 → ℕ) :
    Matrix (Fin 4) (Fin 4) ℝ :=
  (translate_to_origin centroid)⁻¹ * rotation4 (align_vectors normal x_axis) *
    translate_to_origin centroid * translate_to_mid_x (shape 2 / 2) centroid

/-- Source line 199: `affine_matrix = transform[:3, :3]`. -/
def affine_matrix (centroid normal : Fin 3 → ℝ) (shape : Fin 3 → ℕ) :
    Matrix (Fin 3) (Fin 3) ℝ :=
  Matrix.of fun i j => align_transform centroid normal shape i.castSucc j.castSucc

/-- Source line 199: `offset = transform[:3, 3]`. -/
def offset_vec (centroid normal : Fin 3 → ℝ) (shape : Fin 3 → ℕ) : Fin 3 → ℝ :=
  fun i => align_transform centroid normal shape i.castSucc 3

/-- The position in the input volume that output voxel `p` samples, per the
documented semantics of `scipy.ndimage.affine_transform` (inverse mapping:
`output[p] = input[matrix @ p + offset]`), at the call on source
lines 202–204. -/
def sample_location (centroid normal : Fin 3 → ℝ) (shape : Fin 3 → ℕ)
    (p : Fin 3 → ℝ) : Fin 3 → ℝ :=
  (affine_matrix centroid normal shape).mulVec p + offset_vec centroid normal shape

/-- The claim's wording: the 4×4 homogeneous translation by a 3-vector, i.e.
the matrix whose linear block is the identity and whose last column carries the
translation vector. -/
def specHomTranslation (v : Fin 3 → ℝ) : Matrix (Fin 4) (Fin 4) ℝ :=
  Matrix.of fun i j =>
    (if i = j then 1 else 0) + (if h : (i : ℕ) < 3 ∧ j = 3 then v ⟨i, h.1⟩ else 0)

/-- The claim's wording: the 4×4 homogeneous embedding of a 3×3 rotation, i.e.
the rotation as the top-left block, 1 in the bottom-right corner, 0 elsewhere. -/
def specRotationEmbed (R : Matrix (Fin 3) (Fin 3) ℝ) : Matrix (Fin 4) (Fin 4) ℝ :=
  Matrix.of fun i j =>
    if h : (i : ℕ) < 3 ∧ (j : ℕ) < 3 then R ⟨i, h.1⟩ ⟨j, h.2⟩
    else if i = 3 ∧ j = 3 then 1 else 0

lemma translate_to_origin_eq_spec (c : Fin 3 → ℝ) :
    translate_to_origin c = specHomTranslation (fun i => -c i) := by
  ext i j
  fin_cases i <;> fin_cases j <;>
    simp [translate_to_origin, specHomTranslation, Fin.ext_iff,
      show ((3 : Fin 4) : ℕ) = 3 from rfl]

lemma rotation4_eq_spec (R : Matrix (Fin 3) (Fin 3) ℝ) :
    rotation4 R = specRotationEmbed R := by
  ext i j
  fin_cases i <;> fin_cases j <;>
    simp [rotation4, specRotationEmbed, Fin.ext_iff,
      show ((3 : Fin 4) : ℕ) = 3 from rfl]

/-- C1: the alignment transform composed by `align_widget` equals
`inverse(T_to_origin) · R · T_to_origin · T_to_mid` in exactly that
multiplication order, where `T_to_origin` is the homogeneous translation by the
negated centroid and `R` is the 4×4 embedding of the rotation returned by
`align_vectors normal x_axis`. -/
theorem align_transform_composition (centroid normal : Fin 3 → ℝ)
    (shape : Fin 3 → ℕ) :
    align_transform centroid normal shape =
      (specHomTranslation (fun i => -centroid i))⁻¹ *
        specRotationEmbed (align_vectors normal x_axis) *
        specHomTranslation (fun i => -centroid i) *
        translate_to_mid_x (shape 2 / 2) centroid := by
  rw [align_transform, translate_to_origin_eq_spec, rotation4_eq_spec]

lemma rotation4_one : rotation4 (1 : Matrix (Fin 3) (Fin 3) ℝ) = 1 := by
  ext i j
  fin_cases i <;> fin_cases j <;>
    simp [rotation4, Matrix.one_apply, Fin.ext_iff,
      show ((3 : Fin 4) : ℕ) = 3 from rfl]

lemma translate_to_origin_zero : translate_to_origin ![0, 0, 0] = 1 := by
  ext i j
  fin_cases i <;> fin_cases j <;>
    simp [translate_to_origin, Matrix.one_apply, Fin.ext_iff,
      show ((3 : Fin 4) : ℕ) = 3 from rfl]

lemma align_vectors_x_axis_self : align_vectors x_axis x_axis = 1 :=
  align_vectors_self x_axis (by simp [dot3, x_axis])

lemma align_transform_flat_case :
    align_transform ![0, 0, 0] x_axis ![10, 10, 10] =
      translate_to_mid_x 5 ![0, 0, 0] := by
  unfold align_transform
  rw [translate_to_origin_zero, align_vectors_x_axis_self, rotation4_one,
    inv_one, one_mul, one_mul, one_mul]
  norm_num

/-- C2: with the fitted plane through centroid `(0,0,0)` with normal equal to
the canonical axis itself and a volume of extent 10 along that axis
(mid-slice index 5), the output voxel `(0,0,5)` lying on the mid-slice samples
the input at `(0,0,10)` — a point that is not on the fitted plane.  The code's
comment (line 187) and the specification both say the plane should sit at the
mid-slice, so the composed transform contradicts its stated intent. -/
theorem align_widget_midslice_bug :
    sample_location ![0, 0, 0] x_axis ![10, 10, 10] ![0, 0, 5] = ![0, 0, 10] ∧
    dot3 x_axis
      (sample_location ![0, 0, 0] x_axis ![10, 10, 10] ![0, 0, 5] - ![0, 0, 0]) ≠ 0 := by
  have hloc : sample_location ![0, 0, 0] x_axis ![10, 10, 10] ![0, 0, 5] = ![0, 0, 10] := by
    funext i
    fin_cases i <;>
      (simp [sample_location, affine_matrix, offset_vec, align_transform_flat_case,
        translate_to_mid_x, Matrix.mulVec, Matrix.dotProduct, Fin.sum_univ_three,
        Fin.ext_iff, Matrix.vecHead, Matrix.vecTail, Matrix.one_apply,
        show ((3 : Fin 4) : ℕ) = 3 from rfl,
        show ((2 : Fin 4) : ℕ) = 2 from rfl]
       try norm_num)
  refine ⟨hloc, ?_⟩
  rw [hloc]
  simp [dot3, x_axis]

/-! ## mask_widget: erosion

Translated from `mask_widget` in
`brainglobe_template_builder/napari/_widget.py`, lines 99–102:
`morphology.binary_erosion(mask, footprint=np.ones((erosion_size,) * image.ndim))`.
Masks are boolean functions on `Fin 3 → ℤ` with an explicit shape; `data` is
meaningful on coordinates `p` with `0 ≤ p i < shape i`. -/

/-- Whether a coordinate lies inside a volume of the given shape. -/
def inBounds (sh : Fin 3 → ℕ) (p : Fin 3 → ℤ) : Bool :=
  (List.finRange 3).all fun i => decide (0 ≤ p i) && decide (p i < sh i)

/-- Mask lookup with the border convention of `skimage.morphology.binary_erosion`,
which calls `ndi.binary_erosion` with `border_value=True`: voxels beyond the
volume count as foreground. -/
def borderGet (sh : Fin 3 → ℕ) (m : (Fin 3 → ℤ) → Bool) (p : Fin 3 → ℤ) : Bool :=
  if inBounds sh p then m p else true

/-- Offsets of a length-`k` footprint axis, centred per scipy's convention
(the origin sits at index `k / 2`). -/
def footprintOffsets (k : ℕ) : List ℤ :=
  (List.range k).map fun (j : ℕ) => ((j : ℤ) - ((k / 2 : ℕ) : ℤ))

/-- `skimage.morphology.binary_erosion` with the all-ones cubic footprint of
side `k`: an output voxel is true iff every voxel covered by the footprint is
true, voxels outside the volume counting as foreground. -/
def binary_erosion (sh : Fin 3 → ℕ) (m : (Fin 3 → ℤ) → Bool) (k : ℕ)
    (p : Fin 3 → ℤ) : Bool :=
  (footprintOffsets k).all fun d0 =>
    (footprintOffsets k).all fun d1 =>
      (footprintOffsets k).all fun d2 =>
        borderGet sh m (fun i => p i + ![d0, d1, d2] i)

/-- The erosion step of `mask_widget` (source lines 99–102): binary erosion
with footprint `np.ones((erosion_size,) * 3)`, applied only when
`erosion_size > 0`. -/
def erode (sh : Fin 3 → ℕ) (m : (Fin 3 → ℤ) → Bool) (erosion_size : ℕ) :
    (Fin 3 → ℤ) → Bool :=
  if erosion_size > 0 then binary_erosion sh m erosion_size else m

lemma mem_footprintOffsets {k : ℕ} {d : ℤ} :
    d ∈ footprintOffsets k ↔
      -((k / 2 : ℕ) : ℤ) ≤ d ∧ d < (k : ℤ) - ((k / 2 : ℕ) : ℤ) := by
  unfold footprintOffsets
  rw [List.mem_map]
  constructor
  · rintro ⟨j, hj, rfl⟩
    rw [List.mem_range] at hj
    omega
  · intro h
    refine ⟨(d + ((k / 2 : ℕ) : ℤ)).toNat, ?_, ?_⟩
    · rw [List.mem_range]
      omega
    · omega

/-- C10: eroding with erosion size exactly 1 returns the input mask on every
in-bounds voxel: the footprint is an all-ones cube of side equal to the size
itself, and a 1×1×1 footprint makes binary erosion the identity. -/
theorem erode_size_one_identity (sh : Fin 3 → ℕ) (m : (Fin 3 → ℤ) → Bool)
    (p : Fin 3 → ℤ) (hp : inBounds sh p = true) :
    erode sh m 1 p = m p := by
  have h1 : footprintOffsets 1 = [0] := by decide
  unfold erode
  rw [if_pos (by norm_num)]
  unfold binary_erosion
  rw [h1]
  simp only [List.all_cons, List.all_nil, Bool.and_true]
  have hfun : (fun i => p i + (![(0 : ℤ), 0, 0]) i) = p := by
    funext i
    fin_cases i <;> simp
  rw [hfun, borderGet, if_pos hp]

/-- Witness for C10 on a concrete 2×2×2 mask. -/
theorem erode_size_one_identity_witness :
    inBounds ![2, 2, 2] (fun _ => 0) = true ∧
    erode ![2, 2, 2] (fun q => decide (q 0 = 0)) 1 (fun _ => 0) =
      (fun q : Fin 3 → ℤ => decide (q 0 = 0)) (fun _ => 0) :=
  ⟨by decide, erode_size_one_identity ![2, 2, 2] _ (fun _ => 0) (by decide)⟩

/-- The erosion operation as claim C3 describes it: a cubic structuring element
of side `2·r + 1` centred on each voxel, with voxels beyond the volume boundary
treated as background (false). -/
def erodeSpecC3 (sh : Fin 3 → ℕ) (m : (Fin 3 → ℤ) → Bool) (r : ℕ)
    (p : Fin 3 → ℤ) : Bool :=
  decide (∀ d0 ∈ Finset.Icc (-(r : ℤ)) (r : ℤ),
    ∀ d1 ∈ Finset.Icc (-(r : ℤ)) (r : ℤ),
      ∀ d2 ∈ Finset.Icc (-(r : ℤ)) (r : ℤ),
        (inBounds sh (fun i => p i + ![d0, d1, d2] i) &&
          m (fun i => p i + ![d0, d1, d2] i)) = true)

/-- C3 counterexample: on the all-true 3×3×3 mask with erosion size 3, the
code's erosion keeps the centre voxel `(1,1,1)` true — its footprint is a cube
of side 3 (the size itself) and out-of-volume voxels count as foreground —
while the erosion the claim describes (side 2·3+1 = 7, background boundary)
clears it. -/
theorem erode_structuring_element_cex :
    erode ![3, 3, 3] (fun _ => true) 3 (fun _ => 1) = true ∧
    erodeSpecC3 ![3, 3, 3] (fun _ => true) 3 (fun _ => 1) = false :=
  ⟨by decide, by decide⟩

/-- Offset of footprint cell `j` on an axis of a side-`r` cube whose origin
sits at index `r / 2`. -/
def cubeOffset (r j : ℕ) : ℤ := (j : ℤ) - ((r / 2 : ℕ) : ℤ)

/-- The amended wording of C3: a cubic structuring element of side `r` (the
erosion size itself), origin at index `r / 2` on each axis per scipy's centring
convention, with voxels beyond the volume boundary treated as foreground. -/
def erodeAmendedC3 (sh : Fin 3 → ℕ) (m : (Fin 3 → ℤ) → Bool) (r : ℕ)
    (p : Fin 3 → ℤ) : Bool :=
  decide (∀ j0 < r, ∀ j1 < r, ∀ j2 < r,
    (!inBounds sh (fun i => p i + ![cubeOffset r j0, cubeOffset r j1, cubeOffset r j2] i) ||
      m (fun i => p i + ![cubeOffset r j0, cubeOffset r j1, cubeOffset r j2] i)) = true)

lemma borderGet_eq (sh : Fin 3 → ℕ) (m : (Fin 3 → ℤ) → Bool) (q : Fin 3 → ℤ) :
    borderGet sh m q = (!inBounds sh q || m q) := by
  unfold borderGet
  cases h : inBounds sh q <;> simp [h]

/-- C3 (amended): for every mask and erosion size `r > 0`, the erosion applied
by `mask_widget` is binary erosion with a cubic structuring element of side `r`
— the erosion size itself, not `2·r + 1` — and voxels beyond the volume
boundary are treated as foreground, not background. -/
theorem erode_characterisation (sh : Fin 3 → ℕ) (m : (Fin 3 → ℤ) → Bool)
    (r : ℕ) (hr : 0 < r) (p : Fin 3 → ℤ) :
    erode sh m r p = erodeAmendedC3 sh m r p := by
  unfold erode
  rw [if_pos hr]
  rw [Bool.eq_iff_iff]
  unfold binary_erosion erodeAmendedC3
  simp only [List.all_eq_true, decide_eq_true_eq]
  have hmem : ∀ j : ℕ, j < r → cubeOffset r j ∈ footprintOffsets r := by
    intro j hj
    unfold footprintOffsets
    exact List.mem_map.mpr ⟨j, List.mem_range.mpr hj, rfl⟩
  constructor
  · intro h j0 h0 j1 h1 j2 h2
    rw [← borderGet_eq]
    exact h _ (hmem j0 h0) _ (hmem j1 h1) _ (hmem j2 h2)
  · intro h d0 hd0 d1 hd1 d2 hd2
    unfold footprintOffsets at hd0 hd1 hd2
    obtain ⟨j0, hj0, rfl⟩ := List.mem_map.mp hd0
    obtain ⟨j1, hj1, rfl⟩ := List.mem_map.mp hd1
    obtain ⟨j2, hj2, rfl⟩ := List.mem_map.mp hd2
    rw [borderGet_eq]
    exact h j0 (List.mem_range.mp hj0) j1 (List.mem_range.mp hj1)
      j2 (List.mem_range.mp hj2)

/-- Witness for the amended C3 at erosion size 2 on a concrete mask. -/
theorem erode_characterisation_witness :
    0 < 2 ∧ erode ![2, 2, 2] (fun q => decide (q 2 = 0)) 2 (fun _ => 0) =
      erodeAmendedC3 ![2, 2, 2] (fun q => decide (q 2 = 0)) 2 (fun _ => 0) :=
  ⟨by norm_num, erode_characterisation ![2, 2, 2] _ 2 (by norm_num) (fun _ => 0)⟩

/-! ## mask_widget and points_widget: control flow

Translated from `mask_widget` (source lines 45–105) and `points_widget`
(source lines 111–147).  The helper routines imported from
`brainglobe_template_builder.utils` (`threshold_image`,
`extract_largest_object`, `get_midline_points`) and `filters.gaussian` are not
among the provided sources and enter as function parameters. -/

/-- The thresholding methods offered by `mask_widget` (source line 48). -/
inductive ThresholdMethod
  | triangle
  | otsu
  | isodata
deriving DecidableEq

/-- A napari Image layer, reduced to its data. -/
structure ImageLayer (V : Type) where
  data : V

/-- The smoothing step of `mask_widget` (source lines 87–90): Gaussian blur
only when `gauss_sigma > 0`. -/
def smooth_step {V : Type} (gaussian : ℚ → V → V) (gauss_sigma : ℚ) (v : V) : V :=
  if 0 < gauss_sigma then gaussian gauss_sigma v else v

/-- The spec's `threshold(volume, method, sigma)` entry point
(source lines 87–93): optional smoothing followed by `threshold_image`. -/
def threshold {V M : Type} (gaussian : ℚ → V → V)
    (threshold_image : V → ThresholdMethod → M) (v : V)
    (method : ThresholdMethod) (gauss_sigma : ℚ) : M :=
  threshold_image (smooth_step gaussian gauss_sigma v) method

/-- C7: the zero-parameter branches are identities — `threshold` with σ = 0
applies no Gaussian smoothing (while σ > 0 smooths first), and `erode` with
size 0 returns the mask unchanged. -/
theorem mask_widget_zero_branches {V M : Type} (gaussian : ℚ → V → V)
    (threshold_image : V → ThresholdMethod → M) (v : V)
    (method : ThresholdMethod) (σ : ℚ) (hσ : 0 < σ)
    (sh : Fin 3 → ℕ) (m : (Fin 3 → ℤ) → Bool) :
    threshold gaussian threshold_image v method 0 = threshold_image v method ∧
    threshold gaussian threshold_image v method σ =
      threshold_image (gaussian σ v) method ∧
    erode sh m 0 = m := by
  refine ⟨?_, ?_, ?_⟩
  · unfold threshold smooth_step
    rw [if_neg (by norm_num)]
  · unfold threshold smooth_step
    rw [if_pos hσ]
  · unfold erode
    rw [if_neg (by norm_num)]

/-- Witness for C7 at concrete instantiations. -/
theorem mask_widget_zero_branches_witness :
    0 < (1 : ℚ) ∧
    (threshold (fun σ (x : ℚ) => σ * x) (fun x _ => decide (1 ≤ x)) 1
        ThresholdMethod.triangle 0 = decide ((1 : ℚ) ≤ 1) ∧
      threshold (fun σ (x : ℚ) => σ * x) (fun x _ => decide (1 ≤ x)) 1
        ThresholdMethod.triangle 1 = decide ((1 : ℚ) ≤ 1 * 1) ∧
      erode ![1, 1, 1] (fun _ => false) 0 = fun _ => false) :=
  ⟨by norm_num,
    mask_widget_zero_branches (fun σ (x : ℚ) => σ * x) (fun x _ => decide (1 ≤ x))
      1 ThresholdMethod.triangle 1 (by norm_num) ![1, 1, 1] (fun _ => false)⟩

/-- `mask_widget` (source lines 78–105), with its outcome in an explicit error
channel: the function can in principle raise (Python exceptions), returns the
list of printed messages and, on success, the labels-layer tuple
`(mask, "mask", "labels")`.  When no image layer is selected it prints
"Please select an image layer" and returns `None` (source lines 78–82). -/
def mask_widget {V M : Type} (gaussian : ℚ → V → V)
    (threshold_image : V → ThresholdMethod → M)
    (extract_largest_object : M → M) (binary_erosion_fn : M → ℕ → M)
    (image : Option (ImageLayer V)) (gauss_sigma : ℚ)
    (threshold_method : ThresholdMethod) (erosion_size : ℕ) :
    Except String (List String × Option (M × String × String)) :=
  match image with
  | none => .ok (["Please select an image layer"], none)
  | some img =>
    let data_smoothed := smooth_step gaussian gauss_sigma img.data
    let binary := threshold_image data_smoothed threshold_method
    let mask := extract_largest_object binary
    let mask := if 0 < erosion_size then binary_erosion_fn mask erosion_size else mask
    .ok ([], some (mask, "mask", "labels"))

/-- C9 counterexample: called without an image layer, `mask_widget` does not
raise — it prints a message and returns the default `None` payload. -/
theorem mask_widget_silent_default_cex :
    mask_widget (fun _ (x : ℚ) => x) (fun _ _ => false) id (fun m _ => m) none 3
        ThresholdMethod.triangle 5 =
      Except.ok (["Please select an image layer"], none) := rfl

/-- C9 (amended): for every parameterisation, `mask_widget` applied to a
missing image layer returns `None` (with a printed message) instead of raising
an error; no error value is ever produced on this path. -/
theorem mask_widget_none_returns_default {V M : Type} (gaussian : ℚ → V → V)
    (threshold_image : V → ThresholdMethod → M)
    (extract_largest_object : M → M) (binary_erosion_fn : M → ℕ → M)
    (σ : ℚ) (method : ThresholdMethod) (r : ℕ) :
    mask_widget gaussian threshold_image extract_largest_object binary_erosion_fn
        (none : Option (ImageLayer V)) σ method r =
      Except.ok (["Please select an image layer"], none) := rfl

/-- A napari Labels layer: its data plus the `visible` flag that
`points_widget` mutates (source line 145). -/
structure LabelsLayer (M : Type) where
  data : M
  visible : Bool

/-- `points_widget` (source lines 111–147), with explicit state passing:
returns the points-layer payload together with the post-call state of the
input mask layer (`mask.visible = False` is executed before returning). -/
def points_widget {M P : Type} (get_midline_points : M → P)
    (mask : LabelsLayer M) : (P × String) × LabelsLayer M :=
  ((get_midline_points mask.data, "midline points"),
    { mask with visible := false })

/-- C8 counterexample: `points_widget` does not leave its input unchanged — it
clears the mask layer's `visible` flag. -/
theorem points_widget_mutates_input_cex :
    (points_widget (fun _ : Unit => (0 : ℕ)) ⟨(), true⟩).2 ≠
      (⟨(), true⟩ : LabelsLayer Unit) := by
  intro h
  have := congrArg LabelsLayer.visible h
  simp [points_widget] at this

/-- C8 (amended): the modelled operations are pure functions of their inputs,
except that `points_widget` sets the input mask layer's `visible` flag to
false; the layer's data is unchanged and the points are computed from it. -/
theorem points_widget_frame {M P : Type} (get_midline_points : M → P)
    (mask : LabelsLayer M) :
    (points_widget get_midline_points mask).2 = ⟨mask.data, false⟩ ∧
    (points_widget get_midline_points mask).1 =
      (get_midline_points mask.data, "midline points") :=
  ⟨rfl, rfl⟩

/-! ## VolumeResampler

The call `affine_transform(image.data, affine_matrix, offset=offset)` at source
lines 202–204 invokes `scipy.ndimage.affine_transform` with its defaults. -/

/-- A 3-D scalar volume: a shape and real-valued data on integer coordinates. -/
structure Volume3 where
  shape : Fin 3 → ℕ
  data : (Fin 3 → ℤ) → ℝ

/-- The default interpolation order of `scipy.ndimage.affine_transform`
(signature `order=3`, cubic spline); the call at source lines 202–204 passes
no `order`, so this default applies. -/
def scipy_default_order : ℕ := 3

/-- `scipy.ndimage.affine_transform` at the call site, at the level the source
determines: the output is a new volume with the input's shape; output voxel `p`
samples the input at `A·p + b` (the documented inverse mapping
`output[p] = input[matrix @ p + offset]`); positions outside the input bounds
are filled with the default constant `cval = 0`; in-range values are produced
by the library's spline interpolation at the requested order — here scipy's
default, the library's order-indexed interpolant entering as the parameter
`interp`. -/
def affine_transform (interp : ℕ → Volume3 → (Fin 3 → ℝ) → ℝ)
    (vol : Volume3) (A : Matrix (Fin 3) (Fin 3) ℝ) (b : Fin 3 → ℝ) : Volume3 where
  shape := vol.shape
  data := fun p =>
    open Classical in
    let x := A.mulVec (fun i => ((p i : ℤ) : ℝ)) + b
    if ∀ i, 0 ≤ x i ∧ x i ≤ ((vol.shape i : ℕ) : ℝ) - 1 then
      interp scipy_default_order vol x
    else 0

/-- C4 counterexample: the resampled value is produced by the interpolant of
scipy's default order 3, not by the order-1 (linear) interpolant the claim
names — exhibited with an order-discriminating interpolant family on a
concrete one-voxel volume. -/
theorem resample_not_linear_cex :
    (affine_transform (fun ord _ _ => (ord : ℝ)) ⟨![1, 1, 1], fun _ => 0⟩ 1 0).data
        (fun _ => 0) = 3 ∧
    scipy_default_order ≠ 1 := by
  constructor
  · show (open Classical in
      if ∀ i : Fin 3, 0 ≤ ((1 : Matrix (Fin 3) (Fin 3) ℝ).mulVec
            (fun i => (((fun _ : Fin 3 => (0 : ℤ)) i : ℤ) : ℝ)) + 0) i ∧
          ((1 : Matrix (Fin 3) (Fin 3) ℝ).mulVec
            (fun i => (((fun _ : Fin 3 => (0 : ℤ)) i : ℤ) : ℝ)) + 0) i ≤
            (((![1, 1, 1] : Fin 3 → ℕ) i : ℕ) : ℝ) - 1 then
        ((scipy_default_order : ℕ) : ℝ)
      else 0) = 3
    rw [if_pos]
    · rfl
    · intro i
      fin_cases i <;>
        simp [Matrix.one_mulVec]
  · decide

/-- C4 (amended): `resample` returns a newly allocated volume of identical
shape whose value at every integer output coordinate `p` samples the input at
`linear·p + offset`, with constant-zero fill outside the input bounds, using
the library's spline interpolation at scipy's default order 3 — not linear
interpolation (order 1). -/
theorem resample_characterisation (interp : ℕ → Volume3 → (Fin 3 → ℝ) → ℝ)
    (vol : Volume3) (A : Matrix (Fin 3) (Fin 3) ℝ) (b : Fin 3 → ℝ) :
    (affine_transform interp vol A b).shape = vol.shape ∧
    scipy_default_order = 3 ∧
    ∀ p : Fin 3 → ℤ,
      (affine_transform interp vol A b).data p =
        (open Classical in
          if ∀ i, 0 ≤ (A.mulVec (fun i => ((p i : ℤ) : ℝ)) + b) i ∧
              (A.mulVec (fun i => ((p i : ℤ) : ℝ)) + b) i ≤
                ((vol.shape i : ℕ) : ℝ) - 1 then
            interp 3 vol (A.mulVec (fun i => ((p i : ℤ) : ℝ)) + b)
          else 0) :=
  ⟨rfl, rfl, fun _ => rfl⟩

/-! ## PlaneFitter

`fit_plane_to_points` is imported by the widget from
`brainglobe_template_builder.utils`, which is not among the provided sources;
it is modelled from the specification (§4.5) through its variational
characterisation: a total-least-squares fit returns a unit normal minimising
the squared deviation of the points about their centroid. -/

lemma cross3_triple (x y z : Fin 3 → ℝ) :
    cross3 x (cross3 y z) = dot3 x z • y - dot3 x y • z := by
  funext i
  fin_cases i <;> simp [cross3, dot3] <;> ring

lemma dot3_self_eq_zero_iff (w : Fin 3 → ℝ) : dot3 w w = 0 ↔ w = 0 := by
  constructor
  · intro h
    simp only [dot3] at h
    have h0 : w 0 = 0 := by
      nlinarith [mul_self_nonneg (w 0), mul_self_nonneg (w 1), mul_self_nonneg (w 2)]
    have h1 : w 1 = 0 := by
      nlinarith [mul_self_nonneg (w 0), mul_self_nonneg (w 1), mul_self_nonneg (w 2)]
    have h2 : w 2 = 0 := by
      nlinarith [mul_self_nonneg (w 0), mul_self_nonneg (w 1), mul_self_nonneg (w 2)]
    funext i
    fin_cases i <;> simpa
  · intro h
    simp [h, dot3]

lemma parallel_of_cross3_eq_zero {u w : Fin 3 → ℝ} (h : cross3 u w = 0)
    (hw : dot3 w w ≠ 0) : u = (dot3 u w / dot3 w w) • w := by
  have hc0 : u 1 * w 2 - u 2 * w 1 = 0 := by simpa [cross3] using congrFun h 0
  have hc1 : u 2 * w 0 - u 0 * w 2 = 0 := by simpa [cross3] using congrFun h 1
  have hc2 : u 0 * w 1 - u 1 * w 0 = 0 := by simpa [cross3] using congrFun h 2
  have e0 : u 0 * dot3 w w = dot3 u w * w 0 := by
    simp only [dot3]
    linear_combination w 1 * hc2 - w 2 * hc1
  have e1 : u 1 * dot3 w w = dot3 u w * w 1 := by
    simp only [dot3]
    linear_combination w 2 * hc0 - w 0 * hc2
  have e2 : u 2 * dot3 w w = dot3 u w * w 2 := by
    simp only [dot3]
    linear_combination w 0 * hc1 - w 1 * hc0
  funext i
  rw [Pi.smul_apply, smul_eq_mul, div_mul_eq_mul_div, eq_div_iff hw]
  fin_cases i
  · exact e0
  · exact e1
  · exact e2

/-- The centroid of the point set, as the spec words it: the arithmetic mean. -/
def centroid3 {n : ℕ} (pts : Fin n → (Fin 3 → ℝ)) : Fin 3 → ℝ :=
  ((n : ℝ))⁻¹ • ∑ m, pts m

/-- The centroid computed by `align_widget` (source line 174:
`centroid = np.mean(points_data, axis=0)`). -/
def align_widget_centroid {n : ℕ} (points_data : Fin n → (Fin 3 → ℝ)) :
    Fin 3 → ℝ :=
  fun i => (∑ m, points_data m i) / n

lemma align_widget_centroid_eq {n : ℕ} (pts : Fin n → (Fin 3 → ℝ)) :
    align_widget_centroid pts = centroid3 pts := by
  funext i
  simp [align_widget_centroid, centroid3, div_eq_inv_mul]

/-- The plane-fit objective: total squared deviation of the points from the
plane through `c` with normal direction `u`. -/
def scatter3 {n : ℕ} (pts : Fin n → (Fin 3 → ℝ)) (c u : Fin 3 → ℝ) : ℝ :=
  ∑ m, dot3 u (fun i => pts m i - c i) ^ 2

lemma scatter3_nonneg {n : ℕ} (pts : Fin n → (Fin 3 → ℝ)) (c u : Fin 3 → ℝ) :
    0 ≤ scatter3 pts c u :=
  Finset.sum_nonneg fun _ _ => sq_nonneg _

/-- Modelled from the spec: the result of `fit_plane_to_points` from
`brainglobe_template_builder.utils` (absent from the sources), per §4.5 — the
returned centroid is the point-set mean, and the returned normal is a unit
vector in the direction of least variance: among all unit vectors it minimises
the total squared deviation of the points about the centroid. -/
def IsPlaneFit {n : ℕ} (pts : Fin n → (Fin 3 → ℝ)) (c u : Fin 3 → ℝ) : Prop :=
  c = centroid3 pts ∧ dot3 u u = 1 ∧
    ∀ w : Fin 3 → ℝ, dot3 w w = 1 → scatter3 pts c u ≤ scatter3 pts c w

lemma dot3_centered_of_plane {n : ℕ} (pts : Fin n → (Fin 3 → ℝ))
    (a n₀ : Fin 3 → ℝ)
    (hplane : ∀ m, dot3 n₀ (fun i => pts m i - a i) = 0) (hn : (n : ℝ) ≠ 0) :
    ∀ m, dot3 n₀ (fun i => pts m i - centroid3 pts i) = 0 := by
  have hα : ∀ m, n₀ 0 * pts m 0 + n₀ 1 * pts m 1 + n₀ 2 * pts m 2 = dot3 n₀ a := by
    intro m
    have hm := hplane m
    simp only [dot3] at hm ⊢
    linear_combination hm
  have hS : n₀ 0 * (∑ m, pts m 0) + n₀ 1 * (∑ m, pts m 1) +
      n₀ 2 * (∑ m, pts m 2) = (n : ℝ) * dot3 n₀ a := by
    rw [Finset.mul_sum, Finset.mul_sum, Finset.mul_sum,
      ← Finset.sum_add_distrib, ← Finset.sum_add_distrib]
    rw [Finset.sum_congr rfl fun m _ => hα m]
    simp [Finset.sum_const, Finset.card_univ, nsmul_eq_mul]
  intro m
  simp only [dot3, centroid3, Pi.smul_apply, Finset.sum_apply, smul_eq_mul]
  field_simp
  linear_combination (n : ℝ) * hα m - hS

/-- C5: for every point set of at least 3 non-collinear points lying exactly
on a plane with unit normal `n₀`, any total-least-squares plane fit returns
that normal up to sign as a unit vector together with a centroid equal to the
arithmetic mean of the points, and the centroid used by the downstream
alignment transform (`align_widget`, line 174) equals that same mean. -/
theorem fit_plane_exact {n : ℕ} (pts : Fin n → (Fin 3 → ℝ)) (a n₀ : Fin 3 → ℝ)
    (hn₀ : dot3 n₀ n₀ = 1)
    (hplane : ∀ m, dot3 n₀ (fun i => pts m i - a i) = 0)
    (j k l : Fin n)
    (hcol : cross3 (fun i => pts k i - pts j i) (fun i => pts l i - pts j i) ≠ 0)
    (c u : Fin 3 → ℝ) (hfit : IsPlaneFit pts c u) :
    c = align_widget_centroid pts ∧ (u = n₀ ∨ u = -n₀) := by
  obtain ⟨hc, huu, hmin⟩ := hfit
  subst hc
  have hn : (n : ℝ) ≠ 0 := by
    have hpos : 0 < n := j.pos
    exact_mod_cast hpos.ne'
  have hperp₀ := dot3_centered_of_plane pts a n₀ hplane hn
  have hs₀ : scatter3 pts (centroid3 pts) n₀ = 0 := by
    unfold scatter3
    apply Finset.sum_eq_zero
    intro m _
    rw [hperp₀ m]
    ring
  have hsu : scatter3 pts (centroid3 pts) u = 0 :=
    le_antisymm (hs₀ ▸ hmin n₀ hn₀) (scatter3_nonneg _ _ _)
  have hperpu : ∀ m, dot3 u (fun i => pts m i - centroid3 pts i) = 0 := by
    intro m
    have hm := (Finset.sum_eq_zero_iff_of_nonneg
      (fun m _ => sq_nonneg (dot3 u fun i => pts m i - centroid3 pts i))).mp
      hsu m (Finset.mem_univ m)
    exact pow_eq_zero_iff two_ne_zero |>.mp hm
  have hdiff : ∀ x : Fin 3 → ℝ,
      (∀ m, dot3 x (fun i => pts m i - centroid3 pts i) = 0) →
      dot3 x (fun i => pts k i - pts j i) = 0 ∧
        dot3 x (fun i => pts l i - pts j i) = 0 := by
    intro x hx
    constructor
    · have h1 := hx k
      have h2 := hx j
      simp only [dot3] at h1 h2 ⊢
      linear_combination h1 - h2
    · have h1 := hx l
      have h2 := hx j
      simp only [dot3] at h1 h2 ⊢
      linear_combination h1 - h2
  obtain ⟨huU, huV⟩ := hdiff u hperpu
  obtain ⟨hnU, hnV⟩ := hdiff n₀ hperp₀
  have hww : dot3 (cross3 (fun i => pts k i - pts j i) (fun i => pts l i - pts j i))
      (cross3 (fun i => pts k i - pts j i) (fun i => pts l i - pts j i)) ≠ 0 :=
    fun h => hcol ((dot3_self_eq_zero_iff _).mp h)
  have hcrossu : cross3 u (cross3 (fun i => pts k i - pts j i)
      (fun i => pts l i - pts j i)) = 0 := by
    rw [cross3_triple, huU, huV]
    simp
  have hcrossn : cross3 n₀ (cross3 (fun i => pts k i - pts j i)
      (fun i => pts l i - pts j i)) = 0 := by
    rw [cross3_triple, hnU, hnV]
    simp
  have hu := parallel_of_cross3_eq_zero hcrossu hww
  have hn0 := parallel_of_cross3_eq_zero hcrossn hww
  refine ⟨(align_widget_centroid_eq pts).symm, ?_⟩
  have hbu : (dot3 u (cross3 (fun i => pts k i - pts j i)
        (fun i => pts l i - pts j i)) /
      dot3 (cross3 (fun i => pts k i - pts j i) (fun i => pts l i - pts j i))
        (cross3 (fun i => pts k i - pts j i) (fun i => pts l i - pts j i))) ^ 2 *
      dot3 (cross3 (fun i => pts k i - pts j i) (fun i => pts l i - pts j i))
        (cross3 (fun i => pts k i - pts j i) (fun i => pts l i - pts j i)) = 1 := by
    rw [hu] at huu
    simp only [dot3, Pi.smul_apply, smul_eq_mul] at huu ⊢
    linear_combination huu
  have hbn : (dot3 n₀ (cross3 (fun i => pts k i - pts j i)
        (fun i => pts l i - pts j i)) /
      dot3 (cross3 (fun i => pts k i - pts j i) (fun i => pts l i - pts j i))
        (cross3 (fun i => pts k i - pts j i) (fun i => pts l i - pts j i))) ^ 2 *
      dot3 (cross3 (fun i => pts k i - pts j i) (fun i => pts l i - pts j i))
        (cross3 (fun i => pts k i - pts j i) (fun i => pts l i - pts j i)) = 1 := by
    rw [hn0] at hn₀
    simp only [dot3, Pi.smul_apply, smul_eq_mul] at hn₀ ⊢
    linear_combination hn₀
  set β := dot3 u (cross3 (fun i => pts k i - pts j i)
      (fun i => pts l i - pts j i)) /
    dot3 (cross3 (fun i => pts k i - pts j i) (fun i => pts l i - pts j i))
      (cross3 (fun i => pts k i - pts j i) (fun i => pts l i - pts j i)) with hβ
  set γ := dot3 n₀ (cross3 (fun i => pts k i - pts j i)
      (fun i => pts l i - pts j i)) /
    dot3 (cross3 (fun i => pts k i - pts j i) (fun i => pts l i - pts j i))
      (cross3 (fun i => pts k i - pts j i) (fun i => pts l i - pts j i)) with hγ
  have hfactor : (β - γ) * (β + γ) = 0 := by
    have hββ : β ^ 2 * dot3 (cross3 (fun i => pts k i - pts j i)
        (fun i => pts l i - pts j i))
        (cross3 (fun i => pts k i - pts j i) (fun i => pts l i - pts j i)) =
        γ ^ 2 * dot3 (cross3 (fun i => pts k i - pts j i)
        (fun i => pts l i - pts j i))
        (cross3 (fun i => pts k i - pts j i) (fun i => pts l i - pts j i)) := by
      rw [hbu, hbn]
    have hsq := mul_right_cancel₀ hww hββ
    linear_combination hsq
  rcases mul_eq_zero.mp hfactor with h | h
  · left
    have hβγ : β = γ := by linarith [sub_eq_zero.mp h]
    rw [hu, hβγ, ← hn0]
  · right
    have hβγ : β = -γ := by linarith [add_eq_zero_iff_eq_neg.mp h]
    rw [hu, hβγ, neg_smul, ← hn0]

/-- Three concrete points on the plane `z = 0`. -/
def pts3 : Fin 3 → (Fin 3 → ℝ) := ![![0, 0, 0], ![1, 0, 0], ![0, 1, 0]]

/-- Witness for C5 on the concrete points `(0,0,0)`, `(1,0,0)`, `(0,1,0)`. -/
theorem fit_plane_exact_witness :
    IsPlaneFit pts3 (centroid3 pts3) ![0, 0, 1] ∧
    (centroid3 pts3 = align_widget_centroid pts3 ∧
      ((![0, 0, 1] : Fin 3 → ℝ) = ![0, 0, 1] ∨
        (![0, 0, 1] : Fin 3 → ℝ) = -![0, 0, 1])) := by
  have hfit : IsPlaneFit pts3 (centroid3 pts3) ![0, 0, 1] := by
    refine ⟨rfl, by norm_num [dot3], ?_⟩
    intro w hw
    have h0 : scatter3 pts3 (centroid3 pts3) ![0, 0, 1] = 0 := by
      simp [scatter3, centroid3, dot3, pts3, Fin.sum_univ_three]
    rw [h0]
    exact scatter3_nonneg _ _ _
  refine ⟨hfit, ?_⟩
  exact fit_plane_exact pts3 ![0, 0, 0] ![0, 0, 1]
    (by norm_num [dot3])
    (by intro m; fin_cases m <;> norm_num [dot3, pts3])
    0 1 2
    (by
      intro hzero
      have h2 := congrFun hzero 2
      norm_num [cross3, pts3] at h2)
    (centroid3 pts3) ![0, 0, 1] hfit
